import Mathlib

/-!
# Verification of the put-flow-viewer signal scoring engine

Shallow embedding of the signal scoring pipeline implemented by `loadSignals`
in `src/signals.js`, together with proofs of the spec's testable properties.

Modelling conventions:

* Calendar dates are integer day numbers (days since 1970-01-01, local time).
  Every date produced by the source's `parseDate` is a local midnight, so
  millisecond differences are exact multiples of 86,400,000 and the source's
  millisecond arithmetic (`expiry - today`, `Math.abs(pd - cd)`) corresponds
  exactly to integer day differences.  Daylight-saving shifts (which would
  perturb millisecond gaps by an hour in some timezones) are not modelled.
* Loosely-typed JSON field values are modelled by `JVal` (null/absent, string,
  finite number).  JavaScript treats `undefined` and `null` identically in
  every operation this program applies to record fields (`??`, `parseFloat`,
  `parseInt`, `String(...)`), so both are modelled by `JVal.null`.
* JavaScript numbers are modelled by `ℚ`.  NaN / ±Infinity results of
  `parseFloat` / `parseInt` are modelled by `Option` (`none` = not finite),
  matching the program, which only ever consumes these values through
  `isFinite` tests, comparisons and arithmetic on finite values.
* `new Date()` ("today", truncated to local midnight) is a parameter of the
  pipeline.
* The generic `new Date(s)` fallback of `parseDate` (reached only for strings
  matching neither the `M/D/YYYY` nor the `YYYY-MM-DD` shape) is
  implementation-defined in ECMAScript beyond ISO 8601 date-time forms; it is
  modelled as unparseable (`none`).  The repository's data uses the two
  canonical shapes.
* JS string `trim`/`toUpperCase`/`toLowerCase` are modelled character-wise
  (ASCII case mapping); ticker symbols and type tags in the data are ASCII.
-/

/-- A loosely-typed JSON field value: absent/null, a string, or a finite
number.  JavaScript `undefined` is identified with `null` (see module
comment). -/
inductive JVal where
  | null : JVal
  | str : String → JVal
  | num : ℚ → JVal
deriving DecidableEq

/-- JavaScript nullish coalescing `a ?? b`. -/
def jvCoalesce (a b : JVal) : JVal :=
  match a with
  | .null => b
  | v => v

/-- Numeric value of a list of decimal digit characters (most significant
first), as read by the JS number parsers. -/
def digitsVal (ds : List Char) : Nat :=
  ds.foldl (fun n c => n * 10 + (c.toNat - 48)) 0

/-- Leading-sign handling shared by `parseFloat` and `parseInt`:
returns (isNegative, rest). -/
def stripSign (cs : List Char) : Bool × List Char :=
  match cs with
  | '-' :: t => (true, t)
  | '+' :: t => (false, t)
  | _ => (false, cs)

/-- Exponent part of a JS float literal after the `e`.  A malformed exponent
contributes 0 (JS `parseFloat` keeps the longest valid prefix: "1e" parses
as 1). -/
def expPartVal (cs : List Char) : Int :=
  let sgn := stripSign cs
  let ds := sgn.2.takeWhile Char.isDigit
  if ds.isEmpty then 0
  else if sgn.1 then -(digitsVal ds : Int) else (digitsVal ds : Int)

/-- Scale a rational by a power of ten (the exponent of a float literal). -/
def scalePow10 (q : ℚ) (e : Int) : ℚ :=
  if 0 ≤ e then q * (10 : ℚ) ^ e.toNat else q / (10 : ℚ) ^ (-e).toNat

/-- JS `parseFloat` on a string: skip leading whitespace, optional sign,
longest numeric prefix `digits [. digits] [e[sign]digits]`.  `none` models a
non-finite result (NaN for no numeric prefix, ±Infinity for an "Infinity"
prefix) — the program only consumes the result through `isFinite` tests and
finite-value comparisons, which treat NaN and ±Infinity alike. -/
def parseFloatStr (s : String) : Option ℚ :=
  let sgn := stripSign (s.data.dropWhile Char.isWhitespace)
  if sgn.2.take 8 = "Infinity".data then none
  else
    let ip := sgn.2.takeWhile Char.isDigit
    let rest1 := sgn.2.dropWhile Char.isDigit
    let fpRest :=
      match rest1 with
      | '.' :: t => (t.takeWhile Char.isDigit, t.dropWhile Char.isDigit)
      | _ => ([], rest1)
    let fp := fpRest.1
    if ip.isEmpty ∧ fp.isEmpty then none
    else
      let mant : ℚ := (digitsVal ip : ℚ) + (digitsVal fp : ℚ) / (10 : ℚ) ^ fp.length
      let mant := if sgn.1 then -mant else mant
      let e : Int :=
        match fpRest.2 with
        | 'e' :: t => expPartVal t
        | 'E' :: t => expPartVal t
        | _ => 0
      some (scalePow10 mant e)

/-- JS `parseInt` (radix 10) on a string: skip leading whitespace, optional
sign, longest decimal-digit prefix; NaN (`none`) if there is none.  The
hexadecimal `0x` prefix of `parseInt` is not modelled — contract counts in
the data are plain decimal. -/
def parseIntStr (s : String) : Option Int :=
  let sgn := stripSign (s.data.dropWhile Char.isWhitespace)
  let ds := sgn.2.takeWhile Char.isDigit
  if ds.isEmpty then none
  else if sgn.1 then some (-(digitsVal ds : Int)) else some (digitsVal ds : Int)

/-- Truncation toward zero, used by `parseInt` on an already-numeric value
(JS stringifies the number and reparses its integer prefix, which truncates
the fractional part). -/
def ratTrunc (q : ℚ) : Int :=
  if 0 ≤ q then q.floor else q.ceil

/-- Decimal rendering of a JS number, as far as this program observes it
(ticker symbols built from numeric `symbol` fields).  Integers render
exactly; non-integer rationals keep Lean's `num/den` rendering — such
symbols do not occur in the data and no claim depends on them. -/
def jsNumToString (q : ℚ) : String :=
  if q.den = 1 then toString q.num else toString q

/-- JS `String(v)` coercion on a field value. -/
def jsToString (v : JVal) : String :=
  match v with
  | .null => "null"
  | .str s => s
  | .num q => jsNumToString q

/-- JS `parseFloat(v)`: `parseFloat(null)`/`parseFloat(undefined)` are NaN;
a number is returned unchanged (finite JSON numbers round-trip through
their string form). -/
def jsParseFloat (v : JVal) : Option ℚ :=
  match v with
  | .null => none
  | .str s => parseFloatStr s
  | .num q => some q

/-- JS `parseInt(v)` (no radix argument, decimal input). -/
def jsParseInt (v : JVal) : Option Int :=
  match v with
  | .null => none
  | .str s => parseIntStr s
  | .num q => some (ratTrunc q)

/-- Day number (days since 1970-01-01) of a civil date with `1 ≤ m ≤ 12`;
the standard days-from-civil algorithm. -/
def daysFromCivil (y m d : Int) : Int :=
  let y1 := if m ≤ 2 then y - 1 else y
  let era := Int.fdiv y1 400
  let yoe := y1 - era * 400
  let mp := Int.emod (m + 9) 12
  let doy := Int.fdiv (153 * mp + 2) 5 + d - 1
  let doe := yoe * 365 + Int.fdiv yoe 4 - Int.fdiv yoe 100 + doy
  era * 146097 + doe - 719468

/-- Day number of JS `new Date(y, m0, d)` (month argument zero-based):
a year argument 0..99 means 1900+y, and out-of-range month/day arguments
carry over into adjacent years/months exactly as the `Date` constructor
normalizes them. -/
def jsMakeDate (y m0 d : Int) : Int :=
  let yAdj := if 0 ≤ y ∧ y ≤ 99 then y + 1900 else y
  let ym := yAdj + Int.fdiv m0 12
  let mn := Int.emod m0 12 + 1
  daysFromCivil ym mn 1 + (d - 1)

/-- JS `String.prototype.trim`, character-wise. -/
def trimChars (cs : List Char) : List Char :=
  ((cs.dropWhile Char.isWhitespace).reverse.dropWhile Char.isWhitespace).reverse

/-- Split a character list at every occurrence of `sep` (like splitting a
string on a single-character separator; always returns at least one piece). -/
def splitOnChar (sep : Char) : List Char → List (List Char)
  | [] => [[]]
  | c :: rest =>
    let r := splitOnChar sep rest
    if c = sep then [] :: r
    else
      match r with
      | [] => [[c]]
      | h :: t => (c :: h) :: t

/-- All characters are decimal digits. -/
def allDigits (cs : List Char) : Bool := cs.all Char.isDigit

/-- The `YYYY-MM-DD` branch of `parseDate` (the regex
`^(\d{4})-(\d{2})-(\d{2})$`, interpreted as a local calendar date), falling
through to the generic-parse branch, which this model treats as
unparseable. -/
def parseIsoOrNone (cs : List Char) : Option Int :=
  match splitOnChar '-' cs with
  | [a, b, c] =>
    if a.length = 4 ∧ allDigits a ∧ b.length = 2 ∧ allDigits b ∧
       c.length = 2 ∧ allDigits c then
      some (jsMakeDate (digitsVal a) ((digitsVal b : Int) - 1) (digitsVal c))
    else none
  | _ => none

/-- Shallow embedding of `parseDate` (src/signals.js lines 5-19): null for a
nullish input, otherwise trim, try `M/D/YYYY` (2-digit years meaning
2000+yy), then `YYYY-MM-DD`, both as local dates.  The result is the local
midnight of the parsed date, as a day number. -/
def parseDate (raw : JVal) : Option Int :=
  match raw with
  | .null => none
  | v =>
    let cs := trimChars (jsToString v).data
    match splitOnChar '/' cs with
    | [a, b, c] =>
      if 1 ≤ a.length ∧ a.length ≤ 2 ∧ allDigits a ∧
         1 ≤ b.length ∧ b.length ≤ 2 ∧ allDigits b ∧
         2 ≤ c.length ∧ c.length ≤ 4 ∧ allDigits c then
        let yr0 : Int := digitsVal c
        let yr := if yr0 < 100 then yr0 + 2000 else yr0
        some (jsMakeDate yr ((digitsVal a : Int) - 1) (digitsVal b))
      else parseIsoOrNone cs
    | _ => parseIsoOrNone cs

/-- One raw trade record, as loaded from positions.json.  A field that is
absent in the JSON object is `JVal.null` (see module comment).  The `type`
field is modelled as an optional string: the data supplies `"put"`/`"call"`
tags or omits the field. -/
structure RawRecord where
  symbol : JVal := .null
  expiry : JVal := .null
  trade_date : JVal := .null
  contracts : JVal := .null
  original_premium : JVal := .null
  current_premium : JVal := .null
  premium : JVal := .null
  strike : JVal := .null
  type : Option String := none
deriving DecidableEq

/-- The premium resolution chain
`p.original_premium ?? p.current_premium ?? p.premium` (nullish coalescing:
the first PRESENT value, whether or not it parses to a finite number). -/
def premRaw (p : RawRecord) : JVal :=
  jvCoalesce p.original_premium (jvCoalesce p.current_premium p.premium)

/-- Parsed trade date of a record. -/
def tradeDay (p : RawRecord) : Option Int := parseDate p.trade_date

/-- Parsed expiry date of a record. -/
def expiryDay (p : RawRecord) : Option Int := parseDate p.expiry

/-- The per-record validity/activity filter (src/signals.js lines 46-58):
parseable expiry and trade date, expiry not in the past, expiry after the
trade date, finite resolved premium, finite positive contract count. -/
def activePred (today : Int) (p : RawRecord) : Bool :=
  match expiryDay p, tradeDay p with
  | some expiry, some tradeDate =>
    decide (today ≤ expiry) && decide (tradeDate < expiry) &&
    (jsParseFloat (premRaw p)).isSome &&
    (match jsParseInt p.contracts with
     | some c => decide (0 < c)
     | none => false)
  | _, _ => false

/-- ASCII lower-casing of a string (JS `toLowerCase` restricted to the ASCII
tags this program compares). -/
def lowerStr (s : String) : String := String.mk (s.data.map Char.toLower)

/-- Ticker key of a record: `String(p.symbol ?? '').trim().toUpperCase()`. -/
def symOf (p : RawRecord) : String :=
  String.mk ((trimChars (jsToString (jvCoalesce p.symbol (.str ""))).data).map Char.toUpper)

/-- Call/put classification (src/signals.js line 66):
`(p.type ?? 'put').toLowerCase() === 'call'`.  Everything else — including a
missing type — is grouped with the puts. -/
def isCall (p : RawRecord) : Bool :=
  decide (lowerStr (p.type.getD "put") = "call")

/-- Per-ticker partition of the active records into puts and calls,
in input order. -/
structure TickerGroup where
  ticker : String
  puts : List RawRecord
  calls : List RawRecord
deriving DecidableEq, Inhabited

/-- Append a record to the put or call side of a group. -/
def addToGroup (p : RawRecord) (g : TickerGroup) : TickerGroup :=
  if isCall p then { g with calls := g.calls ++ [p] }
  else { g with puts := g.puts ++ [p] }

/-- Insert a record into the group list under its ticker key, appending a
fresh group at the end for a first-seen ticker (JS object insertion order;
the integer-like-key reordering of JS objects is not modelled — tickers in
the data are alphabetic). -/
def insertRec (gs : List TickerGroup) (sym : String) (p : RawRecord) : List TickerGroup :=
  match gs with
  | [] => [addToGroup p { ticker := sym, puts := [], calls := [] }]
  | g :: rest =>
    if g.ticker = sym then addToGroup p g :: rest
    else g :: insertRec rest sym p

/-- The grouping loop (src/signals.js lines 61-71): records with a blank
ticker are dropped, all others are partitioned by ticker and put/call
side. -/
def groupByTicker (ps : List RawRecord) : List TickerGroup :=
  ps.foldl (fun gs p =>
    let sym := symOf p
    if sym = "" then gs else insertRec gs sym p) []

/-- The confluence check (src/signals.js lines 82-94): some put/call pair of
the group traded within 7 calendar days of each other (inclusive, absolute
difference; the source compares `Math.abs(pd - cd) <= 7 * 86_400_000` on
local-midnight timestamps). -/
def hasConfluence (puts calls : List RawRecord) : Bool :=
  puts.any fun put =>
    match tradeDay put with
    | none => false
    | some pd =>
      calls.any fun call =>
        match tradeDay call with
        | none => false
        | some cd => decide ((pd - cd).natAbs ≤ 7)

/-- Number of distinct trade dates across all positions of a group (the
source collects `toDateString()` values in a `Set`; distinct local-midnight
days have distinct renderings). -/
def uniqueTradeDateCount (g : TickerGroup) : Nat :=
  ((g.puts ++ g.calls).filterMap tradeDay).dedup.length

/-- At least one put with 90 or more days to expiry (src/signals.js lines
105-108). -/
def has90DtePut (today : Int) (puts : List RawRecord) : Bool :=
  puts.any fun p =>
    match expiryDay p with
    | none => false
    | some e => decide (90 ≤ e - today)

/-- Criterion 1 of the eligibility gate: both sides present. -/
def bothSides (g : TickerGroup) : Bool :=
  !g.puts.isEmpty && !g.calls.isEmpty

/-- Criteria 2-4 of the eligibility gate, evaluated after `bothSides`:
confluence, activity on at least 2 distinct dates, a 90+ DTE put. -/
def eligibleGroup (today : Int) (g : TickerGroup) : Bool :=
  hasConfluence g.puts g.calls &&
  decide (2 ≤ uniqueTradeDateCount g) &&
  has90DtePut today g.puts

/-- Contract count as the aggregation steps read it:
`parseInt(p.contracts) || 0`. -/
def contractsOf (p : RawRecord) : Int :=
  (jsParseInt p.contracts).getD 0

/-- Total contracts of one side:
`puts.reduce((s, p) => s + (parseInt(p.contracts) || 0), 0)` (and the
same for calls). -/
def sumContracts (l : List RawRecord) : Int :=
  l.foldl (fun s p => s + contractsOf p) 0

/-- Days to expiry of one record, 0 when the expiry does not parse
(src/signals.js line 130). -/
def dteOf (today : Int) (p : RawRecord) : Int :=
  match expiryDay p with
  | some e => e - today
  | none => 0

/-- The DTE weight of a put (src/signals.js line 131). -/
def dteWeight (dte : Int) : ℚ :=
  if 180 ≤ dte then 3 else if 90 ≤ dte then 2 else if 30 ≤ dte then 3/2 else 1

/-- Weighted put score (src/signals.js lines 126-133). -/
def putScoreOf (today : Int) (puts : List RawRecord) : ℚ :=
  puts.foldl (fun s p => s + (contractsOf p : ℚ) * dteWeight (dteOf today p)) 0

/-- The premium weight of a call (src/signals.js lines 142-145): neutral 1.5
for a non-finite or exactly-zero premium, otherwise tiered by size. -/
def premiumWeight (orig : Option ℚ) : ℚ :=
  match orig with
  | none => 3/2
  | some q => if q = 0 then 3/2 else if 5 < q then 2 else if 1 ≤ q then 3/2 else 1

/-- Weighted call score (src/signals.js lines 137-147). -/
def callScoreOf (calls : List RawRecord) : ℚ :=
  calls.foldl (fun s p => s + (contractsOf p : ℚ) * premiumWeight (jsParseFloat (premRaw p))) 0

/-- Parseable trade dates of all positions of a group, in order. -/
def tradeDaysOf (g : TickerGroup) : List Int :=
  (g.puts ++ g.calls).filterMap tradeDay

/-- Parseable expiries of all positions of a group, in order. -/
def expiryDaysOf (g : TickerGroup) : List Int :=
  (g.puts ++ g.calls).filterMap expiryDay

/-- Earliest trade date, `new Date(Math.min(...tradeDates))`; every group
reaching this point was
built from records whose trade date parses, so the list is never empty and
the default is unreachable. -/
def minTradeDateOf (g : TickerGroup) : Int :=
  (tradeDaysOf g).min?.getD 0

/-- Latest expiry, `new Date(Math.max(...expiries))`; same remark as
`minTradeDateOf`. -/
def maxExpiryOf (g : TickerGroup) : Int :=
  (expiryDaysOf g).max?.getD 0

/-- Days active, `Math.max(1, Math.ceil((today - minTradeDate) / 86_400_000))`;
the difference of two local midnights is an exact number of days, so the
ceiling is the integer day difference itself. -/
def daysActiveOf (today : Int) (g : TickerGroup) : Int :=
  max 1 (today - minTradeDateOf g)

/-- The closest-gap scan (src/signals.js lines 156-170): the earlier trade
date of the put/call pair with the smallest absolute gap (first such pair in
scan order wins a tie), defaulting to the earliest trade date when no pair
has two parseable dates. -/
def confluenceDateOf (g : TickerGroup) : Int :=
  let res := g.puts.foldl (fun acc put =>
    match tradeDay put with
    | none => acc
    | some pd =>
      g.calls.foldl (fun acc2 call =>
        match tradeDay call with
        | none => acc2
        | some cd =>
          let gap := (pd - cd).natAbs
          match acc2.1 with
          | none => (some gap, min pd cd)
          | some best => if gap < best then (some gap, min pd cd) else acc2) acc)
    ((none, minTradeDateOf g) : Option Nat × Int)
  res.2

/-- One parsed position as embedded in a Signal for display/AI formatting
(src/signals.js lines 172-178). -/
structure ParsedPos where
  strike : Option ℚ
  expiry : Option Int
  contracts : Int
  originalPremium : Option ℚ
  tradeDate : Option Int
deriving DecidableEq, Inhabited

/-- The position parser `parsePos` (src/signals.js lines 172-178). -/
def parsePos (p : RawRecord) : ParsedPos :=
  { strike := jsParseFloat p.strike
    expiry := expiryDay p
    contracts := contractsOf p
    originalPremium := jsParseFloat (premRaw p)
    tradeDate := tradeDay p }

/-- One output signal (src/signals.js lines 180-198).  `badge` is empty
until the badging pass over the capped list assigns it. -/
structure Signal where
  ticker : String
  totalPuts : Int
  totalCalls : Int
  totalContracts : Int
  putScore : ℚ
  callScore : ℚ
  rawScore : ℚ
  confluenceBonus : ℚ
  putCount : Nat
  callCount : Nat
  daysActive : Int
  minTradeDate : Int
  maxExpiry : Int
  confluenceDate : Int
  score : ℚ
  rawPuts : List ParsedPos
  rawCalls : List ParsedPos
  badge : String := ""
deriving DecidableEq, Inhabited

/-- Aggregation and scoring of one eligible ticker group
(src/signals.js lines 111-198). -/
def mkSignal (today : Int) (g : TickerGroup) : Signal :=
  let putScore := putScoreOf today g.puts
  let callScore := callScoreOf g.calls
  let rawScore := putScore + callScore
  let totalPuts := sumContracts g.puts
  let totalCalls := sumContracts g.calls
  { ticker := g.ticker
    totalPuts := totalPuts
    totalCalls := totalCalls
    totalContracts := totalPuts + totalCalls
    putScore := putScore
    callScore := callScore
    rawScore := rawScore
    confluenceBonus := 3/2
    putCount := g.puts.length
    callCount := g.calls.length
    daysActive := daysActiveOf today g
    minTradeDate := minTradeDateOf g
    maxExpiry := maxExpiryOf g
    confluenceDate := confluenceDateOf g
    score := rawScore * (3/2)
    rawPuts := g.puts.map parsePos
    rawCalls := g.calls.map parsePos }

/-- Stable descending insertion by score: an element is placed before the
first earlier-sorted element whose score does not exceed it, so
equal-score elements keep their relative order. -/
def insertDesc (s : Signal) : List Signal → List Signal
  | [] => [s]
  | t :: ts => if t.score ≤ s.score then s :: t :: ts else t :: insertDesc s ts

/-- The ranking step `signals.sort((a, b) => b.score - a.score)`
(src/signals.js line 202).
JS `Array.prototype.sort` is stable and this comparator orders by score
descending; a stable descending sort is unique, and this insertion sort
computes it. -/
def sortByScoreDesc (l : List Signal) : List Signal :=
  l.foldr insertDesc []

/-- Badge thresholds (src/signals.js line 208):
`score > 150_000 → STRONG`, `score > 75_000 → NOTABLE`, else `WATCH`. -/
def badgeOf (score : ℚ) : String :=
  if 150000 < score then "STRONG" else if 75000 < score then "NOTABLE" else "WATCH"

/-- The value returned by `loadSignals`: the capped badge-assigned signal
list plus the `_qualified` / `_totalCandidates` metadata fields. -/
structure SignalsResult where
  signals : List Signal
  qualified : Nat
  totalCandidates : Nat
deriving DecidableEq

/-- The pipeline from the already-filtered active record list to the result
(src/signals.js lines 60-215): group by ticker, keep groups with both sides,
apply the eligibility gate, score, sort by score descending, record the
qualified count, cap at 8, badge the capped list. -/
def pipelineOnActive (today : Int) (active : List RawRecord) : SignalsResult :=
  let groups := groupByTicker active
  let candidates := groups.filter bothSides
  let sigs := (candidates.filter (eligibleGroup today)).map (mkSignal today)
  let sorted := sortByScoreDesc sigs
  let capped := (sorted.take 8).map fun s => { s with badge := badgeOf s.score }
  { signals := capped
    qualified := sorted.length
    totalCandidates := candidates.length }

/-- Shallow embedding of `loadSignals` (src/signals.js lines 37-216), minus
the fetch of positions.json and the DOM rendering, which are I/O out of
scope.  `today` is the local-midnight day number of `new Date()`. -/
def loadSignals (today : Int) (all : List RawRecord) : SignalsResult :=
  pipelineOnActive today (all.filter (activePred today))

/-- Modelled from the spec: the premium resolution rule as the spec words it
for claim C6 — "prefer original_premium, fall back to current_premium, fall
back to premium; the first FINITE value wins".  Stated only to compare with
the source's `premRaw` chain, which takes the first PRESENT value. -/
def specFirstFinitePremium (p : RawRecord) : Option ℚ :=
  match jsParseFloat p.original_premium with
  | some q => some q
  | none =>
    match jsParseFloat p.current_premium with
    | some q => some q
    | none => jsParseFloat p.premium

/-! ## Concrete inputs

Concrete record sets used to instantiate the theorems below: the spec's
worked end-to-end example (section 8.7), the 7-day boundary pair, the
premium-resolution record, and a malformed record. -/

/-- The "today" anchor of the concrete examples: 2026-01-01 (day 20454). -/
def exToday : Int := 20454

/-- Worked example, put side: 500 contracts, expiry 120 days out
(2026-05-01), traded 10 days ago (2025-12-22). -/
def exPut : RawRecord :=
  { symbol := .str "xyz", expiry := .str "2026-05-01", trade_date := .str "2025-12-22",
    contracts := .num 500, original_premium := .num 1, strike := .num 100,
    type := some "put" }

/-- Worked example, call side: 300 contracts, expiry 60 days out
(2026-03-02), traded 8 days ago (2025-12-24), premium 2.00. -/
def exCall : RawRecord :=
  { symbol := .str "XYZ", expiry := .str "2026-03-02", trade_date := .str "2025-12-24",
    contracts := .num 300, original_premium := .num 2, strike := .num 110,
    type := some "call" }

/-- The input sequence of the worked example. -/
def exRecords : List RawRecord := [exPut, exCall]

/-- The single signal of the worked-example output, written out field by
field (see `exOutput_eq`). -/
def exSig : Signal :=
  { ticker := "XYZ", totalPuts := 500, totalCalls := 300, totalContracts := 800,
    putScore := 1000, callScore := 450, rawScore := 1450, confluenceBonus := 3/2,
    putCount := 1, callCount := 1, daysActive := 10, minTradeDate := 20444,
    maxExpiry := 20574, confluenceDate := 20444, score := 2175,
    rawPuts := [{ strike := some 100, expiry := some 20574, contracts := 500,
                  originalPremium := some 1, tradeDate := some 20444 }],
    rawCalls := [{ strike := some 110, expiry := some 20514, contracts := 300,
                   originalPremium := some 2, tradeDate := some 20446 }],
    badge := "WATCH" }

/-- Boundary example, put traded on day 0 (2025-12-01), long expiry. -/
def bPut : RawRecord :=
  { symbol := .str "AAA", expiry := .str "2026-06-01", trade_date := .str "2025-12-01",
    contracts := .num 10, original_premium := .num 2, type := some "put" }

/-- Boundary example, call traded on day 7 (2025-12-08). -/
def bCall7 : RawRecord :=
  { symbol := .str "AAA", expiry := .str "2026-03-02", trade_date := .str "2025-12-08",
    contracts := .num 10, original_premium := .num 2, type := some "call" }

/-- Boundary example, call traded on day 8 (2025-12-09); all other
eligibility criteria identical to `bCall7`. -/
def bCall8 : RawRecord :=
  { symbol := .str "AAA", expiry := .str "2026-03-02", trade_date := .str "2025-12-09",
    contracts := .num 10, original_premium := .num 2, type := some "call" }

/-- Premium-resolution record: `original_premium` present but not numeric,
`current_premium` finite, all other fields valid. -/
def c6Rec : RawRecord :=
  { symbol := .str "CCC", expiry := .str "2026-06-01", trade_date := .str "2025-12-22",
    contracts := .num 10, original_premium := .str "abc", current_premium := .num 2,
    type := some "put" }

/-- Malformed record: unparseable expiry, everything else valid. -/
def c8Bad : RawRecord :=
  { symbol := .str "XYZ", expiry := .str "not-a-date", trade_date := .str "2025-12-22",
    contracts := .num 400, original_premium := .num 2, type := some "put" }

/-! ## Sorting lemmas -/

/-- Descending-score order between signals. -/
def scoreGE (a b : Signal) : Prop := b.score ≤ a.score

theorem insertDesc_perm (s : Signal) (l : List Signal) :
    List.Perm (insertDesc s l) (s :: l) := by
  induction l with
  | nil => rfl
  | cons t ts ih =>
    unfold insertDesc
    by_cases h : t.score ≤ s.score
    · rw [if_pos h]
    · rw [if_neg h]
      exact (ih.cons t).trans (List.Perm.swap s t ts)

theorem mem_insertDesc {b s : Signal} {l : List Signal} (h : b ∈ insertDesc s l) :
    b = s ∨ b ∈ l :=
  List.mem_cons.mp ((insertDesc_perm s l).mem_iff.mp h)

theorem sortByScoreDesc_perm (l : List Signal) : List.Perm (sortByScoreDesc l) l := by
  induction l with
  | nil => rfl
  | cons x xs ih =>
    exact (insertDesc_perm x (sortByScoreDesc xs)).trans (ih.cons x)

theorem insertDesc_pairwise {s : Signal} {l : List Signal}
    (h : l.Pairwise scoreGE) : (insertDesc s l).Pairwise scoreGE := by
  induction l with
  | nil => simp [insertDesc, scoreGE]
  | cons t ts ih =>
    rcases List.pairwise_cons.mp h with ⟨ht, hts⟩
    unfold insertDesc
    by_cases hc : t.score ≤ s.score
    · rw [if_pos hc]
      refine List.pairwise_cons.mpr ⟨?_, h⟩
      intro b hb
      rcases List.mem_cons.mp hb with rfl | hb
      · exact hc
      · exact le_trans (ht _ hb) hc
    · rw [if_neg hc]
      refine List.pairwise_cons.mpr ⟨?_, ih hts⟩
      intro b hb
      rcases mem_insertDesc hb with rfl | hb
      · exact le_of_lt (lt_of_not_le hc)
      · exact ht _ hb

theorem sortByScoreDesc_pairwise (l : List Signal) :
    (sortByScoreDesc l).Pairwise scoreGE := by
  induction l with
  | nil => simp [sortByScoreDesc]
  | cons x xs ih => exact insertDesc_pairwise ih

theorem filter_insertDesc (s : Signal) (l : List Signal) (c : ℚ) :
    (insertDesc s l).filter (fun x => decide (x.score = c))
      = if s.score = c then s :: l.filter (fun x => decide (x.score = c))
        else l.filter (fun x => decide (x.score = c)) := by
  induction l with
  | nil => by_cases h : s.score = c <;> simp [insertDesc, h]
  | cons t ts ih =>
    unfold insertDesc
    by_cases hc : t.score ≤ s.score
    · rw [if_pos hc]
      by_cases h : s.score = c <;> simp [List.filter_cons, h]
    · rw [if_neg hc]
      by_cases h : s.score = c
      · have htc : ¬ (t.score = c) := fun e => hc (le_of_eq (e.trans h.symm))
        simp [List.filter_cons, htc, ih, h]
      · simp [List.filter_cons, ih, h]

theorem sortByScoreDesc_stable (l : List Signal) (c : ℚ) :
    (sortByScoreDesc l).filter (fun x => decide (x.score = c))
      = l.filter (fun x => decide (x.score = c)) := by
  induction l with
  | nil => rfl
  | cons x xs ih =>
    show (insertDesc x (sortByScoreDesc xs)).filter _ = _
    rw [filter_insertDesc]
    by_cases h : x.score = c <;> simp [List.filter_cons, h, ih]

/-! ## Grouping lemmas -/

/-- Invariant of the accumulated group list: every record of every group
came from the input list `l` and sits on the side matching its `isCall`
classification. -/
def GroupsOK (l : List RawRecord) (gs : List TickerGroup) : Prop :=
  ∀ g ∈ gs, (∀ x ∈ g.puts, x ∈ l ∧ isCall x = false) ∧
            (∀ x ∈ g.calls, x ∈ l ∧ isCall x = true)

theorem groupsOK_addToGroup {l : List RawRecord} {p : RawRecord} {g : TickerGroup}
    (hp : p ∈ l)
    (hg : (∀ x ∈ g.puts, x ∈ l ∧ isCall x = false) ∧
          (∀ x ∈ g.calls, x ∈ l ∧ isCall x = true)) :
    (∀ x ∈ (addToGroup p g).puts, x ∈ l ∧ isCall x = false) ∧
    (∀ x ∈ (addToGroup p g).calls, x ∈ l ∧ isCall x = true) := by
  unfold addToGroup
  cases hc : isCall p with
  | true =>
    simp only [if_pos rfl]
    refine ⟨hg.1, ?_⟩
    intro x hx
    rcases List.mem_append.mp hx with hx | hx
    · exact hg.2 x hx
    · rw [List.mem_singleton.mp hx]
      exact ⟨hp, hc⟩
  | false =>
    simp only [hc, Bool.false_eq_true, if_neg, ite_false]
    refine ⟨?_, hg.2⟩
    intro x hx
    rcases List.mem_append.mp hx with hx | hx
    · exact hg.1 x hx
    · rw [List.mem_singleton.mp hx]
      exact ⟨hp, hc⟩

theorem groupsOK_insertRec {l : List RawRecord} {p : RawRecord} {sym : String} :
    ∀ {gs : List TickerGroup}, GroupsOK l gs → p ∈ l →
      GroupsOK l (insertRec gs sym p)
  | [], _, hp => by
    intro g hg
    rw [List.mem_singleton.mp hg]
    exact groupsOK_addToGroup hp (by constructor <;> intro x hx <;> simp at hx)
  | g0 :: rest, hgs, hp => by
    unfold insertRec
    by_cases he : g0.ticker = sym
    · rw [if_pos he]
      intro g hg
      rcases List.mem_cons.mp hg with rfl | hg
      · exact groupsOK_addToGroup hp (hgs g0 (List.mem_cons_self _ _))
      · exact hgs g (List.mem_cons_of_mem _ hg)
    · rw [if_neg he]
      intro g hg
      rcases List.mem_cons.mp hg with rfl | hg
      · exact hgs g (List.mem_cons_self _ _)
      · exact groupsOK_insertRec (fun g2 hg2 => hgs g2 (List.mem_cons_of_mem _ hg2)) hp g hg

theorem groupsOK_foldl {l : List RawRecord} :
    ∀ (ps : List RawRecord) (gs : List TickerGroup), (∀ x ∈ ps, x ∈ l) → GroupsOK l gs →
      GroupsOK l (ps.foldl (fun gs p =>
        let sym := symOf p
        if sym = "" then gs else insertRec gs sym p) gs)
  | [], gs, _, hgs => hgs
  | p :: ps, gs, hsub, hgs => by
    simp only [List.foldl_cons]
    apply groupsOK_foldl ps _ (fun x hx => hsub x (List.mem_cons_of_mem _ hx))
    by_cases he : symOf p = ""
    · simpa [he] using hgs
    · simpa [he] using groupsOK_insertRec hgs (hsub p (List.mem_cons_self _ _))

theorem groupsOK_groupByTicker (l : List RawRecord) :
    GroupsOK l (groupByTicker l) := by
  unfold groupByTicker
  exact groupsOK_foldl l [] (fun x hx => hx) (by intro g hg; simp at hg)

/-! ## Output decomposition -/

theorem mem_output {today : Int} {all : List RawRecord} {s : Signal}
    (h : s ∈ (loadSignals today all).signals) :
    ∃ g, g ∈ groupByTicker (all.filter (activePred today)) ∧ bothSides g = true ∧
      eligibleGroup today g = true ∧
      s = { mkSignal today g with badge := badgeOf (mkSignal today g).score } := by
  simp only [loadSignals, pipelineOnActive] at h
  rcases List.mem_map.mp h with ⟨s0, hs0, rfl⟩
  have hs1 := List.take_subset 8 _ hs0
  have hs2 := (sortByScoreDesc_perm _).mem_iff.mp hs1
  rcases List.mem_map.mp hs2 with ⟨g, hg, rfl⟩
  rcases List.mem_filter.mp hg with ⟨hg2, helig⟩
  rcases List.mem_filter.mp hg2 with ⟨hg3, hboth⟩
  exact ⟨g, hg3, hboth, helig, rfl⟩

/-! ## Arithmetic lemmas for the score bounds -/

theorem dteWeight_ge_one (d : Int) : 1 ≤ dteWeight d := by
  unfold dteWeight
  split_ifs <;> norm_num

theorem premiumWeight_ge_one (o : Option ℚ) : 1 ≤ premiumWeight o := by
  unfold premiumWeight
  cases o with
  | none => norm_num
  | some q =>
    show (1 : ℚ) ≤ if q = 0 then 3/2 else if 5 < q then 2 else if 1 ≤ q then 3/2 else 1
    split_ifs <;> norm_num

theorem foldl_add_int_ge {l : List RawRecord} :
    ∀ a : Int, (∀ x ∈ l, 1 ≤ contractsOf x) →
      a + l.length ≤ l.foldl (fun s p => s + contractsOf p) a := by
  induction l with
  | nil => intro a _; simp
  | cons p ps ih =>
    intro a h
    simp only [List.foldl_cons, List.length_cons]
    have h1 : 1 ≤ contractsOf p := h p (List.mem_cons_self _ _)
    have h2 := ih (a + contractsOf p) (fun x hx => h x (List.mem_cons_of_mem _ hx))
    omega

theorem foldl_contracts_cast (l : List RawRecord) :
    ∀ a : Int, ((l.foldl (fun s p => s + contractsOf p) a : Int) : ℚ)
      = l.foldl (fun s p => s + (contractsOf p : ℚ)) (a : ℚ) := by
  induction l with
  | nil => intro a; rfl
  | cons p ps ih =>
    intro a
    simp only [List.foldl_cons]
    rw [ih]
    norm_cast

theorem foldl_add_le_foldl_add (f g : RawRecord → ℚ) :
    ∀ (l : List RawRecord) (a b : ℚ), b ≤ a → (∀ x ∈ l, g x ≤ f x) →
      l.foldl (fun s p => s + g p) b ≤ l.foldl (fun s p => s + f p) a := by
  intro l
  induction l with
  | nil => intro a b hab _; simpa using hab
  | cons p ps ih =>
    intro a b hab h
    simp only [List.foldl_cons]
    exact ih _ _ (add_le_add hab (h p (List.mem_cons_self _ _)))
      (fun x hx => h x (List.mem_cons_of_mem _ hx))

theorem foldl_add_eq_sum (f : RawRecord → ℚ) :
    ∀ (l : List RawRecord) (a : ℚ), l.foldl (fun s p => s + f p) a = a + (l.map f).sum := by
  intro l
  induction l with
  | nil => intro a; simp
  | cons p ps ih =>
    intro a
    simp only [List.foldl_cons, List.map_cons, List.sum_cons]
    rw [ih]
    ring

theorem sumContracts_ge_length {l : List RawRecord} (h : ∀ x ∈ l, 1 ≤ contractsOf x) :
    (l.length : Int) ≤ sumContracts l := by
  have h2 := foldl_add_int_ge (l := l) 0 h
  simpa [sumContracts] using h2

theorem putScore_ge_sum {today : Int} {l : List RawRecord}
    (h : ∀ x ∈ l, 1 ≤ contractsOf x) :
    (sumContracts l : ℚ) ≤ putScoreOf today l := by
  unfold putScoreOf sumContracts
  rw [foldl_contracts_cast]
  refine foldl_add_le_foldl_add _ _ l 0 ((0 : Int) : ℚ) (by norm_num) ?_
  intro x hx
  have h1 : (1 : ℚ) ≤ (contractsOf x : ℚ) := by exact_mod_cast h x hx
  have h0 : (0 : ℚ) ≤ (contractsOf x : ℚ) := le_trans zero_le_one h1
  calc (contractsOf x : ℚ) = (contractsOf x : ℚ) * 1 := by ring
    _ ≤ (contractsOf x : ℚ) * dteWeight (dteOf today x) :=
        mul_le_mul_of_nonneg_left (dteWeight_ge_one _) h0

theorem callScore_ge_sum {l : List RawRecord}
    (h : ∀ x ∈ l, 1 ≤ contractsOf x) :
    (sumContracts l : ℚ) ≤ callScoreOf l := by
  unfold callScoreOf sumContracts
  rw [foldl_contracts_cast]
  refine foldl_add_le_foldl_add _ _ l 0 ((0 : Int) : ℚ) (by norm_num) ?_
  intro x hx
  have h1 : (1 : ℚ) ≤ (contractsOf x : ℚ) := by exact_mod_cast h x hx
  have h0 : (0 : ℚ) ≤ (contractsOf x : ℚ) := le_trans zero_le_one h1
  calc (contractsOf x : ℚ) = (contractsOf x : ℚ) * 1 := by ring
    _ ≤ (contractsOf x : ℚ) * premiumWeight (jsParseFloat (premRaw x)) :=
        mul_le_mul_of_nonneg_left (premiumWeight_ge_one _) h0

theorem activePred_contracts {today : Int} {p : RawRecord}
    (h : activePred today p = true) : 1 ≤ contractsOf p := by
  unfold activePred at h
  cases he : expiryDay p with
  | none => rw [he] at h; simp at h
  | some e =>
    cases ht : tradeDay p with
    | none => rw [he, ht] at h; simp at h
    | some t =>
      rw [he, ht] at h
      simp only [Bool.and_eq_true] at h
      cases hc : jsParseInt p.contracts with
      | none => rw [hc] at h; simp at h
      | some c =>
        rw [hc] at h
        have hpos : 0 < c := of_decide_eq_true h.2
        unfold contractsOf
        rw [hc]
        simpa using hpos

theorem bothSides_nonempty {g : TickerGroup} (h : bothSides g = true) :
    g.puts ≠ [] ∧ g.calls ≠ [] := by
  unfold bothSides at h
  simp only [Bool.and_eq_true, Bool.not_eq_true'] at h
  constructor
  · intro he
    rw [he] at h
    simp at h
  · intro he
    rw [he] at h
    simp at h

theorem eligibleGroup_spec {today : Int} {g : TickerGroup}
    (h : eligibleGroup today g = true) :
    hasConfluence g.puts g.calls = true ∧ 2 ≤ uniqueTradeDateCount g ∧
    has90DtePut today g.puts = true := by
  unfold eligibleGroup at h
  simp only [Bool.and_eq_true, decide_eq_true_eq] at h
  exact ⟨h.1.1, h.1.2, h.2⟩

theorem activePred_premium_none {today : Int} {p : RawRecord}
    (h : jsParseFloat (premRaw p) = none) : activePred today p = false := by
  unfold activePred
  cases he : expiryDay p with
  | none => rfl
  | some e =>
    cases ht : tradeDay p with
    | none => rfl
    | some t =>
      rw [h]
      simp

set_option maxRecDepth 8000 in
/-- Evaluation of the pipeline on the worked example: the output is exactly
the singleton `exSig`. -/
theorem exOutput_eq : (loadSignals exToday exRecords).signals = [exSig] := by
  with_unfolding_all rfl

/-! ## Claim theorems -/

/-- C7: for every fixed input sequence and fixed "today" anchor, two
invocations of the full pipeline produce identical output — same signals in
the same order, same scores and badges, and the same metadata counts.  The
embedded pipeline is a pure function, so this is determinism by
construction. -/
theorem c7_determinism : ∀ (today : Int) (a b : List RawRecord), a = b →
    (loadSignals today a).signals = (loadSignals today b).signals ∧
    (loadSignals today a).qualified = (loadSignals today b).qualified ∧
    (loadSignals today a).totalCandidates = (loadSignals today b).totalCandidates := by
  intro today a b h
  rw [h]
  exact ⟨rfl, rfl, rfl⟩

/-- Witness for C7 at the worked example input. -/
theorem c7_witness :
    (loadSignals exToday exRecords).signals = (loadSignals exToday exRecords).signals ∧
    (loadSignals exToday exRecords).qualified = (loadSignals exToday exRecords).qualified ∧
    (loadSignals exToday exRecords).totalCandidates
      = (loadSignals exToday exRecords).totalCandidates :=
  c7_determinism exToday exRecords exRecords rfl

/-- C8: a record with an unparseable expiry or trade date, a non-finite
resolved premium, or non-positive contracts fails the active filter, and
the pipeline output on any sequence containing such a record equals the
output with the record removed — it influences nothing.  (The embedding is
total, so no data-quality input can raise an error.) -/
theorem c8_malformed_dropped :
    (∀ (today : Int) (p : RawRecord),
      (parseDate p.expiry = none ∨ parseDate p.trade_date = none ∨
       jsParseFloat (premRaw p) = none ∨
       (∀ c : Int, jsParseInt p.contracts = some c → c ≤ 0)) →
      activePred today p = false) ∧
    (∀ (today : Int) (pre post : List RawRecord) (r : RawRecord),
      activePred today r = false →
      loadSignals today (pre ++ r :: post) = loadSignals today (pre ++ post)) := by
  constructor
  · intro today p hdisj
    rcases hdisj with h | h | h | h
    · unfold activePred expiryDay
      rw [h]
    · unfold activePred tradeDay
      rw [h]
      cases expiryDay p <;> rfl
    · exact activePred_premium_none h
    · unfold activePred
      cases he : expiryDay p with
      | none => rfl
      | some e =>
        cases ht : tradeDay p with
        | none => rfl
        | some t =>
          cases hc : jsParseInt p.contracts with
          | none => simp
          | some c =>
            have hc2 : ¬ (0 < c) := by
              have := h c hc
              omega
            simp [hc2]
  · intro today pre post r hr
    unfold loadSignals
    rw [List.filter_append, List.filter_append, List.filter_cons_of_neg]
    simp [hr]

/-- Witness for C8: the record with expiry "not-a-date" is dropped and the
worked-example output is unchanged by its presence. -/
theorem c8_witness :
    activePred exToday c8Bad = false ∧
    loadSignals exToday ([exPut] ++ c8Bad :: [exCall])
      = loadSignals exToday ([exPut] ++ [exCall]) :=
  ⟨c8_malformed_dropped.1 exToday c8Bad (Or.inl (by decide)),
   c8_malformed_dropped.2 exToday [exPut] [exCall] c8Bad
     (c8_malformed_dropped.1 exToday c8Bad (Or.inl (by decide)))⟩

/-- C6 counterexample: the claim says the resolved premium is the first
FINITE value of original_premium / current_premium / premium and that a
record with a present-but-non-finite original_premium is kept.  On `c6Rec`
(original_premium "abc", current_premium 2) the spec-worded resolution
yields 2, but the code resolves the first PRESENT value, gets NaN, and
drops the record from the pipeline. -/
theorem c6_counterexample :
    specFirstFinitePremium c6Rec = some 2 ∧
    jsParseFloat (premRaw c6Rec) = none ∧
    activePred exToday c6Rec = false ∧
    (loadSignals exToday [c6Rec]).signals = [] := by
  refine ⟨by with_unfolding_all decide, by decide, by decide, by with_unfolding_all decide⟩

/-- C6 amended: the resolved premium is `parseFloat` of the first PRESENT
(non-nullish) value among original_premium, current_premium, premium — a
present value is never skipped for being non-finite — and a record whose
resolved premium is not finite is excluded by the active filter. -/
theorem c6_premium_resolution :
    (∀ p : RawRecord, p.original_premium ≠ JVal.null →
      premRaw p = p.original_premium) ∧
    (∀ p : RawRecord, p.original_premium = JVal.null → p.current_premium ≠ JVal.null →
      premRaw p = p.current_premium) ∧
    (∀ p : RawRecord, p.original_premium = JVal.null → p.current_premium = JVal.null →
      premRaw p = p.premium) ∧
    (∀ (today : Int) (p : RawRecord), jsParseFloat (premRaw p) = none →
      activePred today p = false) := by
  refine ⟨?_, ?_, ?_, fun _ _ => activePred_premium_none⟩
  · intro p h
    unfold premRaw jvCoalesce
    cases hv : p.original_premium with
    | null => exact absurd hv h
    | str s => rfl
    | num q => rfl
  · intro p h1 h2
    unfold premRaw jvCoalesce
    rw [h1]
    cases hv : p.current_premium with
    | null => exact absurd hv h2
    | str s => rfl
    | num q => rfl
  · intro p h1 h2
    unfold premRaw jvCoalesce
    rw [h1, h2]

/-- Witness for C6 at the concrete record. -/
theorem c6_witness :
    premRaw c6Rec = c6Rec.original_premium ∧ activePred exToday c6Rec = false :=
  ⟨c6_premium_resolution.1 c6Rec (by decide),
   c6_premium_resolution.2.2.2 exToday c6Rec (by decide)⟩

/-- C10: a position is classified as a call exactly when its type field,
lowercased (defaulting to "put" when missing), equals "call"; a missing
type, a padded " call ", or an unrecognized tag like "straddle" all land on
the put side of their group rather than being rejected. -/
theorem c10_call_classification :
    (∀ p : RawRecord, isCall p = true ↔ lowerStr (p.type.getD "put") = "call") ∧
    isCall { type := none } = false ∧
    isCall { type := some "CALL" } = true ∧
    isCall { type := some " call " } = false ∧
    isCall { type := some "straddle" } = false ∧
    (∀ (l : List RawRecord) (g : TickerGroup), g ∈ groupByTicker l →
      (∀ x ∈ g.calls, isCall x = true) ∧ (∀ x ∈ g.puts, isCall x = false)) := by
  refine ⟨?_, by decide, by decide, by decide, by decide, ?_⟩
  · intro p
    simp only [isCall, decide_eq_true_eq]
  · intro l g hg
    have h := groupsOK_groupByTicker l g hg
    exact ⟨fun x hx => (h.2 x hx).2, fun x hx => (h.1 x hx).2⟩

set_option maxRecDepth 10000 in
/-- Witness for C10: the worked-example grouping has its call record on the
call side and its put record on the put side. -/
theorem c10_witness :
    (∀ x ∈ (groupByTicker exRecords).headI.calls, isCall x = true) ∧
    (∀ x ∈ (groupByTicker exRecords).headI.puts, isCall x = false) :=
  c10_call_classification.2.2.2.2.2 exRecords (groupByTicker exRecords).headI
    (by with_unfolding_all decide)

/-- C4 counterexample: the claim badges a score of exactly 75,000.00 as
NOTABLE, but the code's strict `score > 75_000` comparison puts it in
WATCH. -/
theorem c4_counterexample : ¬ (badgeOf 75000 = "NOTABLE") := by
  with_unfolding_all decide

/-- C4 amended: badges use strict greater-than thresholds — 150,000.01 is
STRONG, exactly 150,000.00 is NOTABLE, exactly 75,000.00 (and any score not
exceeding 75,000) is WATCH — and every output signal carries the badge of
its own score. -/
theorem c4_badge_thresholds :
    badgeOf (150000 + 1/100) = "STRONG" ∧
    badgeOf 150000 = "NOTABLE" ∧
    badgeOf 75000 = "WATCH" ∧
    (∀ q : ℚ, q ≤ 75000 → badgeOf q = "WATCH") ∧
    (∀ (today : Int) (all : List RawRecord) (s : Signal),
      s ∈ (loadSignals today all).signals → s.badge = badgeOf s.score) := by
  refine ⟨by with_unfolding_all decide, by with_unfolding_all decide,
    by with_unfolding_all decide, ?_, ?_⟩
  · intro q hq
    unfold badgeOf
    split_ifs with h1 h2
    · exact absurd hq (by linarith)
    · exact absurd hq (by linarith)
    · rfl
  · intro today all s h
    obtain ⟨g, _, _, _, rfl⟩ := mem_output h
    rfl

/-- Witness for C4 at concrete scores and the worked-example output. -/
theorem c4_witness :
    badgeOf 0 = "WATCH" ∧ exSig.badge = badgeOf exSig.score :=
  ⟨c4_badge_thresholds.2.2.2.1 0 (by norm_num),
   c4_badge_thresholds.2.2.2.2 exToday exRecords exSig
     (by rw [exOutput_eq]; exact List.mem_singleton_self _)⟩

/-- C1: a ticker appears in the output only if its group has at least one
put and at least one call, passes the 7-day confluence check, has at least
2 distinct trade dates, and has a put with 90+ days to expiry; in
particular a put-only or call-only ticker never appears. -/
theorem c1_eligibility_gate :
    ∀ (today : Int) (all : List RawRecord) (s : Signal),
      s ∈ (loadSignals today all).signals →
      ∃ g, g ∈ groupByTicker (all.filter (activePred today)) ∧
        g.ticker = s.ticker ∧ g.puts ≠ [] ∧ g.calls ≠ [] ∧
        hasConfluence g.puts g.calls = true ∧
        2 ≤ uniqueTradeDateCount g ∧
        has90DtePut today g.puts = true := by
  intro today all s h
  obtain ⟨g, hgmem, hboth, helig, rfl⟩ := mem_output h
  obtain ⟨hp, hc⟩ := bothSides_nonempty hboth
  obtain ⟨hconf, hdates, h90⟩ := eligibleGroup_spec helig
  exact ⟨g, hgmem, rfl, hp, hc, hconf, hdates, h90⟩

/-- Witness for C1 at the worked-example input and its output signal. -/
theorem c1_witness :
    ∃ g, g ∈ groupByTicker (exRecords.filter (activePred exToday)) ∧
      g.ticker = exSig.ticker ∧ g.puts ≠ [] ∧ g.calls ≠ [] ∧
      hasConfluence g.puts g.calls = true ∧
      2 ≤ uniqueTradeDateCount g ∧
      has90DtePut exToday g.puts = true :=
  c1_eligibility_gate exToday exRecords exSig
    (by rw [exOutput_eq]; exact List.mem_singleton_self _)

set_option maxRecDepth 8000 in
/-- C2: for every ticker group, putScore is the sum over puts of contracts
times the DTE weight (3 / 2 / 1.5 / 1 at the 180 / 90 / 30 day breaks),
callScore is the sum over calls of contracts times the premium weight
(neutral 1.5 for non-finite or zero, 2 above 5, 1.5 from 1 up, else 1), and
score is their sum scaled by the fixed 1.5 confluence bonus; on the spec's
worked example this gives putScore 1000, callScore 450, score 2175 and
badge WATCH. -/
theorem c2_scoring_formula :
    (∀ (today : Int) (g : TickerGroup),
      (mkSignal today g).putScore
        = (g.puts.map fun p => (contractsOf p : ℚ) * dteWeight (dteOf today p)).sum ∧
      (mkSignal today g).callScore
        = (g.calls.map fun p =>
            (contractsOf p : ℚ) * premiumWeight (jsParseFloat (premRaw p))).sum ∧
      (mkSignal today g).score
        = ((mkSignal today g).putScore + (mkSignal today g).callScore) * (3/2)) ∧
    ((loadSignals exToday exRecords).signals.map fun s =>
        (s.ticker, s.putScore, s.callScore, s.score, s.badge))
      = [("XYZ", 1000, 450, 2175, "WATCH")] := by
  constructor
  · intro today g
    refine ⟨?_, ?_, rfl⟩
    · show putScoreOf today g.puts = _
      unfold putScoreOf
      rw [foldl_add_eq_sum (fun p => (contractsOf p : ℚ) * dteWeight (dteOf today p))]
      ring
    · show callScoreOf g.calls = _
      unfold callScoreOf
      rw [foldl_add_eq_sum
        (fun p => (contractsOf p : ℚ) * premiumWeight (jsParseFloat (premRaw p)))]
      ring
  · rw [exOutput_eq]
    with_unfolding_all decide

/-- C3: the output list is sorted by score descending, its length is
exactly min(8, qualifiedCount), and the sort is stable — the sublist of
signals carrying any fixed score is exactly the corresponding sublist of
the unsorted qualifying list, in upstream order. -/
theorem c3_rank_and_cap :
    (∀ (today : Int) (all : List RawRecord),
      ((loadSignals today all).signals.map Signal.score).Pairwise (fun a b => b ≤ a) ∧
      (loadSignals today all).signals.length = min 8 (loadSignals today all).qualified) ∧
    (∀ (l : List Signal) (c : ℚ),
      (sortByScoreDesc l).filter (fun x => decide (x.score = c))
        = l.filter (fun x => decide (x.score = c))) := by
  constructor
  · intro today all
    constructor
    · simp only [loadSignals, pipelineOnActive]
      rw [List.map_map, List.pairwise_map]
      exact List.Pairwise.sublist (List.take_sublist 8 _) (sortByScoreDesc_pairwise _)
    · simp only [loadSignals, pipelineOnActive]
      rw [List.length_map, List.length_take]
  · exact sortByScoreDesc_stable

/-- C9: every output signal has at least one put contract and one call
contract, hence at least 2 total contracts, and its score is at least 1.5
times its total contract count — in particular strictly positive. -/
theorem c9_output_invariants :
    ∀ (today : Int) (all : List RawRecord) (s : Signal),
      s ∈ (loadSignals today all).signals →
      1 ≤ s.totalPuts ∧ 1 ≤ s.totalCalls ∧ 2 ≤ s.totalContracts ∧
      (3/2 : ℚ) * (s.totalContracts : ℚ) ≤ s.score ∧ 0 < s.score := by
  intro today all s h
  obtain ⟨g, hgmem, hboth, _, rfl⟩ := mem_output h
  obtain ⟨hpne, hcne⟩ := bothSides_nonempty hboth
  have hOK := groupsOK_groupByTicker (all.filter (activePred today)) g hgmem
  have hputs1 : ∀ x ∈ g.puts, 1 ≤ contractsOf x := fun x hx =>
    activePred_contracts (List.mem_filter.mp (hOK.1 x hx).1).2
  have hcalls1 : ∀ x ∈ g.calls, 1 ≤ contractsOf x := fun x hx =>
    activePred_contracts (List.mem_filter.mp (hOK.2 x hx).1).2
  have hplen : (1 : Int) ≤ g.puts.length := by
    have := List.length_pos.mpr hpne
    omega
  have hclen : (1 : Int) ≤ g.calls.length := by
    have := List.length_pos.mpr hcne
    omega
  have htp : 1 ≤ sumContracts g.puts := le_trans hplen (sumContracts_ge_length hputs1)
  have htc : 1 ≤ sumContracts g.calls := le_trans hclen (sumContracts_ge_length hcalls1)
  have hps : (sumContracts g.puts : ℚ) ≤ putScoreOf today g.puts := putScore_ge_sum hputs1
  have hcs : (sumContracts g.calls : ℚ) ≤ callScoreOf g.calls := callScore_ge_sum hcalls1
  refine ⟨htp, htc, ?_, ?_, ?_⟩
  · show (2 : Int) ≤ sumContracts g.puts + sumContracts g.calls
    omega
  · show (3/2 : ℚ) * ((sumContracts g.puts + sumContracts g.calls : Int) : ℚ)
      ≤ (putScoreOf today g.puts + callScoreOf g.calls) * (3/2)
    push_cast
    linarith
  · show (0 : ℚ) < (putScoreOf today g.puts + callScoreOf g.calls) * (3/2)
    have h2 : (1 : ℚ) ≤ (sumContracts g.puts : ℚ) := by exact_mod_cast htp
    have h3 : (1 : ℚ) ≤ (sumContracts g.calls : ℚ) := by exact_mod_cast htc
    linarith

/-- Witness for C9 at the worked-example output signal. -/
theorem c9_witness :
    1 ≤ exSig.totalPuts ∧ 1 ≤ exSig.totalCalls ∧ 2 ≤ exSig.totalContracts ∧
    (3/2 : ℚ) * (exSig.totalContracts : ℚ) ≤ exSig.score ∧ 0 < exSig.score :=
  c9_output_invariants exToday exRecords exSig
    (by rw [exOutput_eq]; exact List.mem_singleton_self _)

set_option maxRecDepth 8000 in
/-- C5: confluence holds exactly when some put/call pair of the group has
trade dates at most 7 days apart (inclusive, absolute difference); with all
other criteria satisfied, a put on day 0 with a call on day 7 produces the
ticker in the output, while a call on day 8 produces no signal even though
the ticker is still counted as a candidate. -/
theorem c5_confluence_window :
    (∀ (puts calls : List RawRecord),
      hasConfluence puts calls = true ↔
        ∃ put ∈ puts, ∃ call ∈ calls, ∃ pd cd : Int,
          tradeDay put = some pd ∧ tradeDay call = some cd ∧ (pd - cd).natAbs ≤ 7) ∧
    ((loadSignals exToday [bPut, bCall7]).signals.map Signal.ticker = ["AAA"]) ∧
    (loadSignals exToday [bPut, bCall8]).signals = [] ∧
    (loadSignals exToday [bPut, bCall8]).totalCandidates = 1 ∧
    hasConfluence [bPut] [bCall7] = true ∧
    hasConfluence [bPut] [bCall8] = false := by
  refine ⟨?_, by with_unfolding_all decide, by with_unfolding_all decide,
    by with_unfolding_all decide, by decide, by decide⟩
  intro puts calls
  unfold hasConfluence
  rw [List.any_eq_true]
  constructor
  · rintro ⟨put, hput, hm⟩
    cases hpd : tradeDay put with
    | none =>
      rw [hpd] at hm
      simp at hm
    | some pd =>
      rw [hpd] at hm
      simp only [List.any_eq_true] at hm
      obtain ⟨call, hcall, hm2⟩ := hm
      cases hcd : tradeDay call with
      | none =>
        rw [hcd] at hm2
        simp at hm2
      | some cd =>
        rw [hcd] at hm2
        exact ⟨put, hput, call, hcall, pd, cd, hpd, hcd, of_decide_eq_true hm2⟩
  · rintro ⟨put, hput, call, hcall, pd, cd, hpd, hcd, hle⟩
    refine ⟨put, hput, ?_⟩
    rw [hpd]
    simp only [List.any_eq_true]
    refine ⟨call, hcall, ?_⟩
    rw [hcd]
    exact decide_eq_true hle

/-- Witness for C5: the iff instantiated at the boundary pair, giving the
existence of the day-0/day-7 pair. -/
theorem c5_witness :
    ∃ put ∈ [bPut], ∃ call ∈ [bCall7], ∃ pd cd : Int,
      tradeDay put = some pd ∧ tradeDay call = some cd ∧ (pd - cd).natAbs ≤ 7 :=
  (c5_confluence_window.1 [bPut] [bCall7]).mp (by decide)
